import Mathlib

/-
  Verification development for the GENIA feature-extraction script
  (featureExtract.py).  Strings are modelled as lists of characters;
  the regular-expression uses of the script are all literal-substring
  or character-class tests and are embedded as such.
-/

/-- Strings of the script are modelled as lists of characters. -/
abbrev Str := List Char

/-- Coerce a Lean string literal to the list-of-characters model. -/
def strL (s : String) : Str := s.data

/-- ASCII uppercase letter test, the character class used by the script. -/
def isUpperA (c : Char) : Bool := decide ('A' ≤ c) && decide (c ≤ 'Z')

/-- ASCII lowercase letter test. -/
def isLowerA (c : Char) : Bool := decide ('a' ≤ c) && decide (c ≤ 'z')

/-- ASCII decimal digit test, the character class [0-9]. -/
def isDigitA (c : Char) : Bool := decide ('0' ≤ c) && decide (c ≤ '9')

/-- Word character in the sense of the regex metacharacter for words:
ASCII letter, digit or underscore. -/
def isWordA (c : Char) : Bool := isUpperA c || isLowerA c || isDigitA c || c == '_'

/-- ASCII lowercasing of a single character, the case folding applied by
case-insensitive matching over byte strings. -/
def toLowerAscii (c : Char) : Char :=
  if isUpperA c then Char.ofNat (c.toNat + 32) else c

/-- Lowercase an entire modelled string. -/
def lowerStr (s : Str) : Str := s.map toLowerAscii

/-- Prefix test on modelled strings. -/
def isPrefixL : Str → Str → Bool
  | [], _ => true
  | _ :: _, [] => false
  | c :: cs, d :: ds => c == d && isPrefixL cs ds

/-- Substring occurrence test: the semantics of searching for a literal
pattern anywhere in a string. -/
def occursIn (pat : Str) : Str → Bool
  | [] => isPrefixL pat []
  | c :: rest => isPrefixL pat (c :: rest) || occursIn pat rest

/-- Case-insensitive search for a literal pattern, the semantics of the
script's ignore-case searches (patterns are given lowercased). -/
def searchCI (pat : Str) (token : Str) : Bool := occursIn pat (lowerStr token)

/- ORTHOGRAPHIC FEATURES, one function per feature as in the source. -/

/-- getHyphenBool: 1 when a hyphen is in the token. -/
def getHyphenBool (token : Str) : Nat := if token.contains '-' then 1 else 0

/-- getCommaBool: 1 when a comma is in the token. -/
def getCommaBool (token : Str) : Nat := if token.contains ',' then 1 else 0

/-- getCapLetterBool: 1 when a capital letter is in the token. -/
def getCapLetterBool (token : Str) : Nat := if token.any isUpperA then 1 else 0

/-- getNumberBool: 1 when a digit is in the token. -/
def getNumberBool (token : Str) : Nat := if token.any isDigitA then 1 else 0

/-- getBackslashBool: 1 when a backslash is in the token. -/
def getBackslashBool (token : Str) : Nat := if token.contains '\\' then 1 else 0

/-- getColonBool: 1 when a colon is in the token. -/
def getColonBool (token : Str) : Nat := if token.contains ':' then 1 else 0

/-- getSemiColonBool: 1 when a semicolon is in the token. -/
def getSemiColonBool (token : Str) : Nat := if token.contains ';' then 1 else 0

/-- getBracketBool: 1 when a square bracket (either side) is in the token. -/
def getBracketBool (token : Str) : Nat :=
  if token.contains '[' || token.contains ']' then 1 else 0

/-- getParenBool: 1 when a parenthesis (either side) is in the token. -/
def getParenBool (token : Str) : Nat :=
  if token.contains '(' || token.contains ')' then 1 else 0

/- WORD SHAPE -/

/-- Emitted run of letter a characters: runs of four or more collapse to
exactly three, shorter runs are kept. -/
def runOut (n : Nat) : Str := if 4 ≤ n then ['a', 'a', 'a'] else List.replicate n 'a'

/-- Left-to-right scan collapsing every maximal run of four or more
consecutive a characters down to three, with a count of pending a's;
this is the substitution of the pattern aaaa+ by aaa. -/
def collapseAux : Str → Nat → Str
  | [], n => runOut n
  | c :: rest, n =>
    if c == 'a' then collapseAux rest (n + 1)
    else runOut n ++ c :: collapseAux rest 0

/-- Step 1 of getWordShape: uppercase letters become A. -/
def subUpper (c : Char) : Char := if isUpperA c then 'A' else c

/-- Step 2 of getWordShape: lowercase letters become a. -/
def subLower (c : Char) : Char := if isLowerA c then 'a' else c

/-- Step 4 of getWordShape: digits become d. -/
def subDigit (c : Char) : Char := if isDigitA c then 'd' else c

/-- Step 5 of getWordShape: non-word characters become an underscore. -/
def subNonWord (c : Char) : Char := if isWordA c then c else '_'

/-- getWordShape: the five substitutions applied in source order. -/
def getWordShape (token : Str) : Str :=
  (((collapseAux ((token.map subUpper).map subLower) 0).map subDigit).map subNonWord)

/- LEXICAL FEATURES -/

/-- Alternatives of the greek-letter pattern, in source order. -/
def greekPats : List Str :=
  [strL "alpha", strL "beta", strL "gamma", strL "delta", strL "epsilon",
   strL "zeta", strL "theta", strL "kappa", strL "lambda"]

/-- Alternatives of the common-string pattern, in source order. -/
def commonPats : List Str :=
  [strL "prot", strL "mono", strL "nucle", strL "integr", strL "macro", strL "il-"]

/-- Alternatives of the any-lexical union pattern, in source order. -/
def anyLexPats : List Str :=
  [strL "alpha", strL "beta", strL "gamma", strL "delta", strL "epsilon",
   strL "zeta", strL "theta", strL "kappa", strL "lambda",
   strL "rna", strL "cell", strL "gene", strL "jurkat", strL "transcript",
   strL "factor",
   strL "prot", strL "mono", strL "nucle", strL "integr", strL "macro", strL "il-"]

/-- getGreekLetterBool: 1 when one of the common greek letter names occurs
in the token, case-insensitively. -/
def getGreekLetterBool (token : Str) : Nat :=
  if greekPats.any (fun p => searchCI p token) then 1 else 0

/-- getRNABool: 1 when rna occurs in the token, case-insensitively. -/
def getRNABool (token : Str) : Nat := if searchCI (strL "rna") token then 1 else 0

/-- getCellBool: 1 when cell occurs in the token, case-insensitively. -/
def getCellBool (token : Str) : Nat := if searchCI (strL "cell") token then 1 else 0

/-- getGeneBool: 1 when gene occurs in the token, case-insensitively. -/
def getGeneBool (token : Str) : Nat := if searchCI (strL "gene") token then 1 else 0

/-- getJurkatBool: 1 when jurkat occurs in the token, case-insensitively. -/
def getJurkatBool (token : Str) : Nat := if searchCI (strL "jurkat") token then 1 else 0

/-- getTranscriptBool: 1 when transcript occurs in the token,
case-insensitively. -/
def getTranscriptBool (token : Str) : Nat :=
  if searchCI (strL "transcript") token then 1 else 0

/-- getFactorBool: 1 when factor occurs in the token, case-insensitively. -/
def getFactorBool (token : Str) : Nat := if searchCI (strL "factor") token then 1 else 0

/-- getCommonStringBool: 1 when one of the common biomedical substrings
occurs in the token, case-insensitively. -/
def getCommonStringBool (token : Str) : Nat :=
  if commonPats.any (fun p => searchCI p token) then 1 else 0

/-- getAnyLexBool: 1 when any alternative of the union pattern occurs in
the token, case-insensitively. -/
def getAnyLexBool (token : Str) : Nat :=
  if anyLexPats.any (fun p => searchCI p token) then 1 else 0

/-- getCapLetterByselfBool helper: the match of an uppercase class at the
start of the token. -/
def headUpper : Str → Bool
  | [] => false
  | c :: _ => isUpperA c

/-- getCapLetterByselfBool: 1 when the token is a single capital letter. -/
def getCapLetterByselfBool (token : Str) : Nat :=
  if (token.length == 1) && headUpper token then 1 else 0

/- MAIN LOOP: sentence assembly, feature-vector serialization, output. -/

/-- Whitespace in the sense of the no-argument string split: space, tab,
newline, carriage return, vertical tab, form feed. -/
def isSpaceA (c : Char) : Bool :=
  c == ' ' || c == '\t' || c == '\n' || c == '\r' || c == '\x0b' || c == '\x0c'

/-- Accumulator worker for the whitespace split. -/
def splitWSAux : Str → Str → List Str
  | [], acc => if acc.isEmpty then [] else [acc.reverse]
  | c :: rest, acc =>
    if isSpaceA c then
      if acc.isEmpty then splitWSAux rest []
      else acc.reverse :: splitWSAux rest []
    else splitWSAux rest (c :: acc)

/-- Split a line on runs of whitespace, dropping empty fields: the
semantics of the no-argument string split applied to each input line. -/
def splitWS (line : Str) : List Str := splitWSAux line []

/-- Decimal rendering of an integer feature value as written by the
string formatting of the output loop. -/
def showNat (n : Nat) : Str := (Nat.repr n).data

/-- The tempList built for one token: the 22 fields appended in source
order (token, POS tag, 9 orthographic booleans, word shape, 9 lexical
booleans, capital-letter-by-itself boolean, IOB label). -/
def featureFields (token posT iob : Str) : List Str :=
  [token, posT,
   showNat (getHyphenBool token), showNat (getCommaBool token),
   showNat (getCapLetterBool token), showNat (getNumberBool token),
   showNat (getBackslashBool token), showNat (getColonBool token),
   showNat (getSemiColonBool token), showNat (getBracketBool token),
   showNat (getParenBool token),
   getWordShape token,
   showNat (getGreekLetterBool token), showNat (getRNABool token),
   showNat (getCellBool token), showNat (getGeneBool token),
   showNat (getJurkatBool token), showNat (getTranscriptBool token),
   showNat (getFactorBool token), showNat (getCommonStringBool token),
   showNat (getAnyLexBool token),
   showNat (getCapLetterByselfBool token),
   iob]

/-- Serialization of a tempList: every field but the last is written
followed by a tab, then the last field, then a newline. -/
def writeTemp (l : List Str) : Str :=
  (l.dropLast.map (fun f => f ++ ['\t'])).flatten ++ (l.getLast?.getD []) ++ ['\n']

/-- The full output line written for one token. -/
def tokenLine (token posT iob : Str) : Str := writeTemp (featureFields token posT iob)

/-- Program state of the main loop: the per-sentence token buffer, the
per-sentence label buffer, the processed-sentence counter, and the
contents written to the output file so far. -/
structure PyState where
  sentenceList : List Str
  IOBList : List Str
  numSentences : Nat
  out : Str
deriving DecidableEq, Repr

/-- Initial state of the main loop. -/
def initState : PyState := ⟨[], [], 0, []⟩

/-- Emission loop over the tokens of a finished sentence, indexing the
POS-tag list and the label list at an explicit counter as the source
does; an out-of-range index is an uncaught error carrying the output
written so far. -/
def emitFrom (posTags iobs : List Str) : List Str → Nat → Str → Except Str Str
  | [], _, out => Except.ok out
  | t :: rest, i, out =>
    match posTags[i]?, iobs[i]? with
    | some p, some b => emitFrom posTags iobs rest (i + 1) (out ++ tokenLine t p b)
    | _, _ => Except.error out

/-- Handling of a sentence-boundary line: tag the buffered sentence, emit
one line per token, then a blank line, reset both buffers and increment
the sentence counter. -/
def processBlank (posTag : List Str → List Str) (s : PyState) : Except PyState PyState :=
  match emitFrom (posTag s.sentenceList) s.IOBList s.sentenceList 0 s.out with
  | Except.error o => Except.error { s with out := o }
  | Except.ok o =>
    Except.ok ⟨[], [], s.numSentences + 1, o ++ ['\n']⟩

/-- Processing of one input line: a line with no fields is a sentence
boundary; otherwise the first field is appended to the token buffer and
the second to the label buffer, and a line with exactly one field is an
uncaught indexing error raised after the token append. -/
def processLine (posTag : List Str → List Str) (s : PyState) (line : Str) :
    Except PyState PyState :=
  match splitWS line with
  | [] => processBlank posTag s
  | [tok] => Except.error { s with sentenceList := s.sentenceList ++ [tok] }
  | tok :: lab :: _ =>
    Except.ok { s with sentenceList := s.sentenceList ++ [tok],
                       IOBList := s.IOBList ++ [lab] }

/-- The main loop over all input lines; an uncaught error aborts the run
with the state at the point of failure. -/
def runLines (posTag : List Str → List Str) : List Str → PyState → Except PyState PyState
  | [], s => Except.ok s
  | line :: rest, s =>
    match processLine posTag s line with
    | Except.ok s2 => runLines posTag rest s2
    | Except.error e => Except.error e

/-- The whole program on a list of input lines, from the initial state. -/
def runProgram (posTag : List Str → List Str) (lines : List Str) : Except PyState PyState :=
  runLines posTag lines initState

/-- A concrete POS tagger used to exercise the model on closed inputs. -/
def constTagger : List Str → List Str := fun ts => ts.map (fun _ => strL "NN")

/-- Aligned per-token output lines of one sentence block, walking the
three per-sentence lists in lockstep. -/
def blockLines : List Str → List Str → List Str → List Str
  | t :: ts, p :: ps, b :: bs => tokenLine t p b :: blockLines ts ps bs
  | _, _, _ => []

/-- Splitter on tab characters, for stating the field structure of an
output line. -/
def splitTabAux : Str → Str → List Str
  | [], acc => [acc.reverse]
  | c :: rest, acc =>
    if c == '\t' then acc.reverse :: splitTabAux rest []
    else splitTabAux rest (c :: acc)

/-- Split a serialized line on tabs. -/
def splitTab (s : Str) : List Str := splitTabAux s []

/-- Single-tab interleaving of fields, with no leading, doubled or
trailing separator. -/
def joinTabs : List Str → Str
  | [] => []
  | [x] => x
  | x :: y :: t => x ++ '\t' :: joinTabs (y :: t)

/-- Scanner for an occurrence of four consecutive a characters, used to
characterize the strings on which the run collapse acts. -/
def hasAAAA : Str → Bool
  | [] => false
  | c :: rest => (c == 'a' && rest.take 3 == ['a', 'a', 'a']) || hasAAAA rest

/- Helper lemmas on serialization and field structure. -/

theorem ite01 (b : Bool) : (if b then (1 : Nat) else 0) = 0 ∨ (if b then (1 : Nat) else 0) = 1 := by
  cases b <;> simp

theorem showNat_tabFree (n : Nat) (h : n = 0 ∨ n = 1) : '\t' ∉ showNat n := by
  rcases h with rfl | rfl <;> decide

theorem mem_shape_word (t : Str) (c : Char) (hc : c ∈ getWordShape t) : isWordA c = true := by
  unfold getWordShape at hc
  rcases List.mem_map.mp hc with ⟨c2, _, rfl⟩
  unfold subNonWord
  split
  · assumption
  · decide

theorem shape_tabFree (t : Str) : '\t' ∉ getWordShape t := by
  intro hmem
  exact absurd (mem_shape_word t _ hmem) (by decide)

theorem fieldsTabFree (t p b : Str) (ht : '\t' ∉ t) (hp : '\t' ∉ p) (hb : '\t' ∉ b) :
    ∀ f ∈ featureFields t p b, '\t' ∉ f := by
  intro f hf
  simp only [featureFields, List.mem_cons, List.not_mem_nil, or_false] at hf
  rcases hf with rfl|rfl|rfl|rfl|rfl|rfl|rfl|rfl|rfl|rfl|rfl|rfl|rfl|rfl|rfl|rfl|rfl|rfl|rfl|rfl|rfl|rfl|rfl
  · exact ht
  · exact hp
  · exact showNat_tabFree _ (by unfold getHyphenBool; exact ite01 _)
  · exact showNat_tabFree _ (by unfold getCommaBool; exact ite01 _)
  · exact showNat_tabFree _ (by unfold getCapLetterBool; exact ite01 _)
  · exact showNat_tabFree _ (by unfold getNumberBool; exact ite01 _)
  · exact showNat_tabFree _ (by unfold getBackslashBool; exact ite01 _)
  · exact showNat_tabFree _ (by unfold getColonBool; exact ite01 _)
  · exact showNat_tabFree _ (by unfold getSemiColonBool; exact ite01 _)
  · exact showNat_tabFree _ (by unfold getBracketBool; exact ite01 _)
  · exact showNat_tabFree _ (by unfold getParenBool; exact ite01 _)
  · exact shape_tabFree t
  · exact showNat_tabFree _ (by unfold getGreekLetterBool; exact ite01 _)
  · exact showNat_tabFree _ (by unfold getRNABool; exact ite01 _)
  · exact showNat_tabFree _ (by unfold getCellBool; exact ite01 _)
  · exact showNat_tabFree _ (by unfold getGeneBool; exact ite01 _)
  · exact showNat_tabFree _ (by unfold getJurkatBool; exact ite01 _)
  · exact showNat_tabFree _ (by unfold getTranscriptBool; exact ite01 _)
  · exact showNat_tabFree _ (by unfold getFactorBool; exact ite01 _)
  · exact showNat_tabFree _ (by unfold getCommonStringBool; exact ite01 _)
  · exact showNat_tabFree _ (by unfold getAnyLexBool; exact ite01 _)
  · exact showNat_tabFree _ (by unfold getCapLetterByselfBool; exact ite01 _)
  · exact hb

theorem splitTabAux_noTab (s : Str) : ∀ acc : Str, '\t' ∉ s →
    splitTabAux s acc = [acc.reverse ++ s] := by
  induction s with
  | nil => intro acc _; simp [splitTabAux]
  | cons c rest ih =>
    intro acc h
    have hc : c ≠ '\t' := fun hco => h (hco ▸ List.mem_cons_self c rest)
    have hr : '\t' ∉ rest := fun hm => h (List.mem_cons_of_mem c hm)
    simp only [splitTabAux, beq_eq_false_iff_ne.mpr hc, if_neg]
    rw [ih (c :: acc) hr]
    simp

theorem splitTabAux_cons (c : Char) (rest acc : Str) :
    splitTabAux (c :: rest) acc =
      if c == '\t' then acc.reverse :: splitTabAux rest []
      else splitTabAux rest (c :: acc) := rfl

theorem splitTabAux_boundary (x : Str) : ∀ acc : Str, '\t' ∉ x → ∀ rest : Str,
    splitTabAux (x ++ '\t' :: rest) acc = (acc.reverse ++ x) :: splitTabAux rest [] := by
  induction x with
  | nil => intro acc _ rest; simp [splitTabAux]
  | cons c xr ih =>
    intro acc h rest
    have hc : c ≠ '\t' := fun hco => h (hco ▸ List.mem_cons_self c xr)
    have hr : '\t' ∉ xr := fun hm => h (List.mem_cons_of_mem c hm)
    rw [List.cons_append, splitTabAux_cons, beq_eq_false_iff_ne.mpr hc]
    simp only [Bool.false_eq_true, if_false]
    rw [ih (c :: acc) hr rest]
    simp

theorem splitTab_joinTabs : ∀ l : List Str, l ≠ [] → (∀ f ∈ l, '\t' ∉ f) →
    splitTab (joinTabs l) = l := by
  intro l
  induction l with
  | nil => intro h; exact absurd rfl h
  | cons x xs ih =>
    intro _ hf
    cases xs with
    | nil =>
      unfold splitTab joinTabs
      rw [splitTabAux_noTab x [] (hf x (List.mem_cons_self x []))]
      rfl
    | cons y t =>
      unfold splitTab joinTabs
      rw [splitTabAux_boundary x [] (hf x (List.mem_cons_self x (y :: t))) (joinTabs (y :: t))]
      have hrest := ih (by simp) (fun f hm => hf f (List.mem_cons_of_mem x hm))
      unfold splitTab at hrest
      rw [hrest]
      rfl

theorem writeTemp_joinTabs : ∀ l : List Str, l ≠ [] → writeTemp l = joinTabs l ++ ['\n'] := by
  intro l
  induction l with
  | nil => intro h; exact absurd rfl h
  | cons x xs ih =>
    intro _
    cases xs with
    | nil => simp [writeTemp, joinTabs]
    | cons y t =>
      have hstep : writeTemp (x :: y :: t) = x ++ '\t' :: writeTemp (y :: t) := by
        simp only [writeTemp]
        rw [show (x :: y :: t).dropLast = x :: (y :: t).dropLast from rfl,
            List.getLast?_cons_cons]
        simp [List.append_assoc]
      rw [hstep, ih (by simp)]
      simp [joinTabs]

theorem joinTabs_intercalate : ∀ l : List Str, joinTabs l = List.intercalate ['\t'] l := by
  intro l
  induction l with
  | nil => rfl
  | cons x xs ih =>
    cases xs with
    | nil => simp [joinTabs, List.intercalate, List.intersperse]
    | cons y t =>
      simp only [joinTabs, ih]
      simp [List.intercalate, List.intersperse, List.flatten]

theorem featureFields_ne_nil (t p b : Str) : featureFields t p b ≠ [] := by
  simp [featureFields]

theorem splitTab_tokenLine (t p b : Str) (ht : '\t' ∉ t) (hp : '\t' ∉ p) (hb : '\t' ∉ b) :
    splitTab ((tokenLine t p b).dropLast) = featureFields t p b := by
  unfold tokenLine
  rw [writeTemp_joinTabs _ (featureFields_ne_nil t p b), List.dropLast_concat]
  exact splitTab_joinTabs _ (featureFields_ne_nil t p b) (fieldsTabFree t p b ht hp hb)

/-- C1 counterexample: an emitted per-token output line splits into 23
tab-separated fields, not 22, already on the concrete token IL-2 with
tag NN and label B-protein. -/
theorem c1_counterexample :
    (splitTab ((tokenLine (strL "IL-2") (strL "NN") (strL "B-protein")).dropLast)).length = 23 ∧
    ¬ (splitTab ((tokenLine (strL "IL-2") (strL "NN") (strL "B-protein")).dropLast)).length = 22 := by
  decide

/-- C1 amended: for every emitted per-token output line (the serialized
feature vector for a token with its POS tag and label, none containing a
tab), splitting the line at tabs yields exactly 23 fields, in the fixed
order token, posTag, the 9 orthographic booleans, wordShape, the 9
lexical booleans, capAlone, label. -/
theorem c1_line_has_23_ordered_fields (t p b : Str)
    (ht : '\t' ∉ t) (hp : '\t' ∉ p) (hb : '\t' ∉ b) :
    splitTab ((tokenLine t p b).dropLast) =
      [t, p,
       showNat (getHyphenBool t), showNat (getCommaBool t),
       showNat (getCapLetterBool t), showNat (getNumberBool t),
       showNat (getBackslashBool t), showNat (getColonBool t),
       showNat (getSemiColonBool t), showNat (getBracketBool t),
       showNat (getParenBool t),
       getWordShape t,
       showNat (getGreekLetterBool t), showNat (getRNABool t),
       showNat (getCellBool t), showNat (getGeneBool t),
       showNat (getJurkatBool t), showNat (getTranscriptBool t),
       showNat (getFactorBool t), showNat (getCommonStringBool t),
       showNat (getAnyLexBool t),
       showNat (getCapLetterByselfBool t),
       b] ∧
    (splitTab ((tokenLine t p b).dropLast)).length = 23 := by
  have h := splitTab_tokenLine t p b ht hp hb
  exact ⟨h, by rw [h]; unfold featureFields; simp⟩

/-- Witness for C1 at the concrete token IL-2 with tag NN and label
B-protein. -/
theorem c1_witness :
    splitTab ((tokenLine (strL "IL-2") (strL "NN") (strL "B-protein")).dropLast) =
      [strL "IL-2", strL "NN",
       showNat (getHyphenBool (strL "IL-2")), showNat (getCommaBool (strL "IL-2")),
       showNat (getCapLetterBool (strL "IL-2")), showNat (getNumberBool (strL "IL-2")),
       showNat (getBackslashBool (strL "IL-2")), showNat (getColonBool (strL "IL-2")),
       showNat (getSemiColonBool (strL "IL-2")), showNat (getBracketBool (strL "IL-2")),
       showNat (getParenBool (strL "IL-2")),
       getWordShape (strL "IL-2"),
       showNat (getGreekLetterBool (strL "IL-2")), showNat (getRNABool (strL "IL-2")),
       showNat (getCellBool (strL "IL-2")), showNat (getGeneBool (strL "IL-2")),
       showNat (getJurkatBool (strL "IL-2")), showNat (getTranscriptBool (strL "IL-2")),
       showNat (getFactorBool (strL "IL-2")), showNat (getCommonStringBool (strL "IL-2")),
       showNat (getAnyLexBool (strL "IL-2")),
       showNat (getCapLetterByselfBool (strL "IL-2")),
       strL "B-protein"] ∧
    (splitTab ((tokenLine (strL "IL-2") (strL "NN") (strL "B-protein")).dropLast)).length = 23 :=
  c1_line_has_23_ordered_fields (strL "IL-2") (strL "NN") (strL "B-protein")
    (by decide) (by decide) (by decide)

theorem if01_eq_one (b : Bool) : (if b then (1 : Nat) else 0) = 1 ↔ b = true := by
  cases b <;> simp

/-- C2: the word-shape function applies, in order, uppercase to A,
lowercase to a, collapse of runs of 4 or more a characters to aaa,
digits to d, and remaining non-word characters to an underscore;
concrete instances pin each rule and the order down: Jurkat-1 yields
Aaaa_d, uppercase runs are not collapsed, lowercase runs of 4 or more
collapse to exactly three while runs of 3 stay, digit runs are not
collapsed (digits are rewritten after the collapse), the lowercase
letter d maps to a before digits are rewritten, and punctuation maps to
an underscore. -/
theorem c2_shape_rules :
    getWordShape (strL "Jurkat-1") = strL "Aaaa_d" ∧
    getWordShape (strL "ABCDE") = strL "AAAAA" ∧
    getWordShape (strL "abcde") = strL "aaa" ∧
    getWordShape (strL "abc") = strL "aaa" ∧
    getWordShape (strL "11111") = strL "ddddd" ∧
    getWordShape (strL "dddd") = strL "aaa" ∧
    getWordShape (strL "Ab-2_x!") = strL "Aa_d_a_" := by
  decide

/-- C4: for every token string, the any-lexical boolean computed from the
union pattern equals the logical OR of the eight individual lexical
booleans. -/
theorem c4_anyLex_is_or_of_eight (t : Str) :
    getAnyLexBool t = 1 ↔
      (getGreekLetterBool t = 1 ∨ getRNABool t = 1 ∨ getCellBool t = 1 ∨
       getGeneBool t = 1 ∨ getJurkatBool t = 1 ∨ getTranscriptBool t = 1 ∨
       getFactorBool t = 1 ∨ getCommonStringBool t = 1) := by
  unfold getAnyLexBool getGreekLetterBool getRNABool getCellBool getGeneBool
    getJurkatBool getTranscriptBool getFactorBool getCommonStringBool
  rw [if01_eq_one, if01_eq_one, if01_eq_one, if01_eq_one, if01_eq_one,
      if01_eq_one, if01_eq_one, if01_eq_one, if01_eq_one]
  simp only [anyLexPats, greekPats, commonPats, List.any_cons, List.any_nil,
    Bool.or_false, Bool.or_eq_true]
  tauto

/- Helper lemmas on the main loop. -/

theorem processLine_one_field (posTag : List Str → List Str) (s : PyState) (line w : Str)
    (h : splitWS line = [w]) :
    processLine posTag s line =
      Except.error { s with sentenceList := s.sentenceList ++ [w] } := by
  unfold processLine
  rw [h]

theorem runLines_append (posTag : List Str → List Str) (a b : List Str) (s : PyState) :
    runLines posTag (a ++ b) s =
      match runLines posTag a s with
      | Except.ok s2 => runLines posTag b s2
      | Except.error e => Except.error e := by
  induction a generalizing s with
  | nil => simp [runLines]
  | cons line rest ih =>
    have hl : runLines posTag ((line :: rest) ++ b) s =
        (match processLine posTag s line with
         | Except.ok s2 => runLines posTag (rest ++ b) s2
         | Except.error e => Except.error e) := rfl
    have hr : runLines posTag (line :: rest) s =
        (match processLine posTag s line with
         | Except.ok s2 => runLines posTag rest s2
         | Except.error e => Except.error e) := rfl
    rw [hl, hr]
    cases processLine posTag s line with
    | ok s2 => exact ih s2
    | error e => rfl

theorem stepTwoField (posTag : List Str → List Str) (s : PyState) (l : Str)
    (h : 2 ≤ (splitWS l).length) :
    ∃ s2, processLine posTag s l = Except.ok s2 ∧
      s2.out = s.out ∧ s2.numSentences = s.numSentences := by
  rcases hsp : splitWS l with _ | ⟨tok, _ | ⟨lab, rest⟩⟩
  · rw [hsp] at h; simp at h
  · rw [hsp] at h; simp at h
  · exact ⟨{ s with sentenceList := s.sentenceList ++ [tok], IOBList := s.IOBList ++ [lab] },
      by unfold processLine; rw [hsp], rfl, rfl⟩

theorem runTail (posTag : List Str → List Str) (tail : List Str) : ∀ s : PyState,
    (∀ l ∈ tail, 2 ≤ (splitWS l).length) →
    ∃ s2, runLines posTag tail s = Except.ok s2 ∧
      s2.out = s.out ∧ s2.numSentences = s.numSentences := by
  induction tail with
  | nil => intro s _; exact ⟨s, rfl, rfl, rfl⟩
  | cons l rest ih =>
    intro s hall
    obtain ⟨s2, hp, hout, hnum⟩ := stepTwoField posTag s l (hall l (List.mem_cons_self l rest))
    obtain ⟨s3, hrest, hout2, hnum2⟩ := ih s2 (fun x hx => hall x (List.mem_cons_of_mem l hx))
    refine ⟨s3, ?_, by rw [hout2, hout], by rw [hnum2, hnum]⟩
    unfold runLines
    rw [hp]
    exact hrest

/-- C5: when the input ends while a non-empty sentence is buffered (the
trailing lines are all ordinary token records with at least two fields
and no boundary line follows them), the run still succeeds, nothing more
is written to the output and the sentence counter keeps the value it had
before those trailing records: the dangling sentence is silently
dropped. -/
theorem c5_dangling_sentence_dropped (posTag : List Str → List Str)
    (pre tail : List Str) (s : PyState)
    (hrun : runLines posTag pre initState = Except.ok s)
    (htail : ∀ l ∈ tail, 2 ≤ (splitWS l).length) :
    ∃ s2, runLines posTag (pre ++ tail) initState = Except.ok s2 ∧
      s2.out = s.out ∧ s2.numSentences = s.numSentences := by
  obtain ⟨s2, hr, ho, hn⟩ := runTail posTag tail s htail
  refine ⟨s2, ?_, ho, hn⟩
  rw [runLines_append, hrun]
  exact hr

/-- Witness for C5: a one-sentence input followed by a dangling token
record; the output and counter match the run without the dangler. -/
theorem c5_witness :
    ∃ s2, runLines constTagger ([strL "a O", strL ""] ++ [strL "b O"]) initState = Except.ok s2 ∧
      s2.out = (⟨[], [], 1,
        strL "a\tNN\t0\t0\t0\t0\t0\t0\t0\t0\t0\ta\t0\t0\t0\t0\t0\t0\t0\t0\t0\t0\tO\n\n"⟩ : PyState).out ∧
      s2.numSentences = (⟨[], [], 1,
        strL "a\tNN\t0\t0\t0\t0\t0\t0\t0\t0\t0\ta\t0\t0\t0\t0\t0\t0\t0\t0\t0\t0\tO\n\n"⟩ : PyState).numSentences :=
  c5_dangling_sentence_dropped constTagger [strL "a O", strL ""] [strL "b O"]
    ⟨[], [], 1, strL "a\tNN\t0\t0\t0\t0\t0\t0\t0\t0\t0\ta\t0\t0\t0\t0\t0\t0\t0\t0\t0\t0\tO\n\n"⟩
    rfl (by decide)

/-- C8: an input line with exactly one whitespace-separated field makes
the whole run fail with an uncaught error, whatever lines follow: the
record is not dropped and no missing field is guessed. -/
theorem c8_one_field_is_fatal (posTag : List Str → List Str) (s : PyState)
    (line : Str) (rest : List Str) (h : (splitWS line).length = 1) :
    ∃ e, runLines posTag (line :: rest) s = Except.error e := by
  rcases hsp : splitWS line with _ | ⟨w, _ | ⟨b, t2⟩⟩
  · rw [hsp] at h; simp at h
  · exact ⟨_, by unfold runLines; rw [processLine_one_field posTag s line w hsp]⟩
  · rw [hsp] at h; simp at h

/-- Witness for C8 on the concrete one-field line lonely. -/
theorem c8_witness :
    ∃ e, runLines constTagger (strL "lonely" :: [strL "x O"]) initState = Except.error e :=
  c8_one_field_is_fatal constTagger initState (strL "lonely") [strL "x O"] (by decide)

/-- C9: the failure on a one-field line is not atomic: the lone field has
already been appended to the token buffer when the label lookup fails,
so the state at the error has a token buffer exactly one element longer
than the label buffer whenever the two were aligned before. -/
theorem c9_error_state_buffers (posTag : List Str → List Str) (s : PyState)
    (line w : Str) (h : splitWS line = [w]) :
    processLine posTag s line =
      Except.error { s with sentenceList := s.sentenceList ++ [w] } ∧
    ({ s with sentenceList := s.sentenceList ++ [w] } : PyState).IOBList = s.IOBList ∧
    (s.sentenceList.length = s.IOBList.length →
      ({ s with sentenceList := s.sentenceList ++ [w] } : PyState).sentenceList.length =
        ({ s with sentenceList := s.sentenceList ++ [w] } : PyState).IOBList.length + 1) := by
  refine ⟨processLine_one_field posTag s line w h, rfl, ?_⟩
  intro hlen
  simp [hlen]

/-- Witness for C9 on the concrete one-field line lonely from the initial
state. -/
theorem c9_witness :
    processLine constTagger initState (strL "lonely") =
      Except.error { initState with
        sentenceList := initState.sentenceList ++ [strL "lonely"] } ∧
    ({ initState with sentenceList := initState.sentenceList ++ [strL "lonely"] } : PyState).IOBList =
      initState.IOBList ∧
    (initState.sentenceList.length = initState.IOBList.length →
      ({ initState with sentenceList := initState.sentenceList ++ [strL "lonely"] } : PyState).sentenceList.length =
        ({ initState with sentenceList := initState.sentenceList ++ [strL "lonely"] } : PyState).IOBList.length + 1) :=
  c9_error_state_buffers constTagger initState (strL "lonely") (strL "lonely") (by decide)

/-- C10: an input line with three or more whitespace-separated fields is
processed successfully: the first field is buffered as the token, the
second as the label, and the remaining fields are ignored. -/
theorem c10_extra_fields_ignored (posTag : List Str → List Str) (s : PyState)
    (line tok lab : Str) (rest : List Str)
    (h : splitWS line = tok :: lab :: rest) (_hr : rest ≠ []) :
    processLine posTag s line =
      Except.ok { s with sentenceList := s.sentenceList ++ [tok],
                         IOBList := s.IOBList ++ [lab] } := by
  unfold processLine
  rw [h]

/-- Witness for C10 on a concrete three-field line. -/
theorem c10_witness :
    processLine constTagger initState (strL "a b c") =
      Except.ok { initState with
        sentenceList := initState.sentenceList ++ [strL "a"],
        IOBList := initState.IOBList ++ [strL "b"] } :=
  c10_extra_fields_ignored constTagger initState (strL "a b c") (strL "a") (strL "b")
    [strL "c"] (by decide) (by decide)

/- Helper lemmas on sentence-block emission. -/

theorem emitFrom_ok (posTags iobs : List Str) : ∀ (toks : List Str) (i : Nat) (out : Str),
    i + toks.length ≤ posTags.length → i + toks.length ≤ iobs.length →
    emitFrom posTags iobs toks i out =
      Except.ok (out ++ (blockLines toks (posTags.drop i) (iobs.drop i)).flatten) := by
  intro toks
  induction toks with
  | nil =>
    intro i out _ _
    show Except.ok out = _
    rw [show blockLines [] (posTags.drop i) (iobs.drop i) = [] from rfl]
    simp
  | cons t rest ih =>
    intro i out hp hb
    simp only [List.length_cons] at hp hb
    have hip : i < posTags.length := by omega
    have hib : i < iobs.length := by omega
    unfold emitFrom
    rw [List.getElem?_eq_getElem hip, List.getElem?_eq_getElem hib]
    show emitFrom posTags iobs rest (i + 1) (out ++ tokenLine t posTags[i] iobs[i]) =
      Except.ok (out ++ (blockLines (t :: rest) (posTags.drop i) (iobs.drop i)).flatten)
    rw [ih (i + 1) (out ++ tokenLine t posTags[i] iobs[i]) (by omega) (by omega)]
    rw [List.drop_eq_getElem_cons hip, List.drop_eq_getElem_cons hib]
    rw [show blockLines (t :: rest) (posTags[i] :: posTags.drop (i + 1))
          (iobs[i] :: iobs.drop (i + 1)) =
        tokenLine t posTags[i] iobs[i] ::
          blockLines rest (posTags.drop (i + 1)) (iobs.drop (i + 1)) from rfl]
    simp [List.append_assoc]

theorem processBlank_ok (posTag : List Str → List Str) (s : PyState)
    (hpos : (posTag s.sentenceList).length = s.sentenceList.length)
    (hiob : s.IOBList.length = s.sentenceList.length) :
    processBlank posTag s = Except.ok ⟨[], [], s.numSentences + 1,
      s.out ++ (blockLines s.sentenceList (posTag s.sentenceList) s.IOBList).flatten ++ ['\n']⟩ := by
  unfold processBlank
  rw [emitFrom_ok (posTag s.sentenceList) s.IOBList s.sentenceList 0 s.out
    (by omega) (by omega)]
  simp [List.append_assoc]

theorem blockLines_length : ∀ toks poss iobs : List Str,
    poss.length = toks.length → iobs.length = toks.length →
    (blockLines toks poss iobs).length = toks.length := by
  intro toks
  induction toks with
  | nil => intro poss iobs _ _; rw [show blockLines [] poss iobs = [] from rfl]
  | cons t ts ih =>
    intro poss iobs hp hb
    cases poss with
    | nil => simp at hp
    | cons p ps =>
      cases iobs with
      | nil => simp at hb
      | cons b bs =>
        simp only [List.length_cons] at hp hb
        rw [show blockLines (t :: ts) (p :: ps) (b :: bs) =
            tokenLine t p b :: blockLines ts ps bs from rfl]
        simp only [List.length_cons]
        rw [ih ps bs (by omega) (by omega)]

theorem blockLines_getElem? : ∀ (toks poss iobs : List Str) (i : Nat) (t p b : Str),
    toks[i]? = some t → poss[i]? = some p → iobs[i]? = some b →
    (blockLines toks poss iobs)[i]? = some (tokenLine t p b) := by
  intro toks
  induction toks with
  | nil => intro poss iobs i t p b ht _ _; simp at ht
  | cons t0 ts ih =>
    intro poss iobs i t p b ht hp hb
    cases poss with
    | nil => simp at hp
    | cons p0 ps =>
      cases iobs with
      | nil => simp at hb
      | cons b0 bs =>
        rw [show blockLines (t0 :: ts) (p0 :: ps) (b0 :: bs) =
            tokenLine t0 p0 b0 :: blockLines ts ps bs from rfl]
        cases i with
        | zero =>
          simp only [List.getElem?_cons_zero, Option.some.injEq] at ht hp hb
          rw [ht, hp, hb]
          exact List.getElem?_cons_zero
        | succ j =>
          simp only [List.getElem?_cons_succ] at ht hp hb ⊢
          exact ih ps bs j t p b ht hp hb

theorem mem_blockLines : ∀ (toks poss iobs : List Str) (l : Str),
    l ∈ blockLines toks poss iobs → ∃ t p b, l = tokenLine t p b := by
  intro toks
  induction toks with
  | nil =>
    intro poss iobs l hl
    rw [show blockLines [] poss iobs = [] from rfl] at hl
    cases hl
  | cons t ts ih =>
    intro poss iobs l hl
    cases poss with
    | nil =>
      rw [show blockLines (t :: ts) [] iobs = [] from rfl] at hl
      cases hl
    | cons p ps =>
      cases iobs with
      | nil =>
        rw [show blockLines (t :: ts) (p :: ps) [] = [] from rfl] at hl
        cases hl
      | cons b bs =>
        rw [show blockLines (t :: ts) (p :: ps) (b :: bs) =
            tokenLine t p b :: blockLines ts ps bs from rfl] at hl
        rcases List.mem_cons.mp hl with rfl | hl2
        · exact ⟨t, p, b, rfl⟩
        · exact ih ps bs l hl2

theorem featureFields_getLast (t p b : Str) : (featureFields t p b).getLast? = some b := by
  have h : featureFields t p b =
      [t, p,
       showNat (getHyphenBool t), showNat (getCommaBool t),
       showNat (getCapLetterBool t), showNat (getNumberBool t),
       showNat (getBackslashBool t), showNat (getColonBool t),
       showNat (getSemiColonBool t), showNat (getBracketBool t),
       showNat (getParenBool t),
       getWordShape t,
       showNat (getGreekLetterBool t), showNat (getRNABool t),
       showNat (getCellBool t), showNat (getGeneBool t),
       showNat (getJurkatBool t), showNat (getTranscriptBool t),
       showNat (getFactorBool t), showNat (getCommonStringBool t),
       showNat (getAnyLexBool t),
       showNat (getCapLetterByselfBool t)] ++ [b] := rfl
  rw [h, List.getLast?_concat]

/-- C6: for a well-formed buffered sentence (labels aligned with tokens
and the tagger returning one tag per token, no field containing a tab),
the boundary line emits exactly one output line per input token, in
original order, and the final tab-separated field of the line at
position i is the i-th input label. -/
theorem c6_sentence_block_alignment (posTag : List Str → List Str) (s : PyState) (line : Str)
    (hline : splitWS line = [])
    (hpos : (posTag s.sentenceList).length = s.sentenceList.length)
    (hiob : s.IOBList.length = s.sentenceList.length)
    (htf : ∀ f, f ∈ s.sentenceList ++ posTag s.sentenceList ++ s.IOBList → '\t' ∉ f) :
    ∃ lns : List Str,
      processLine posTag s line =
        Except.ok ⟨[], [], s.numSentences + 1, s.out ++ lns.flatten ++ ['\n']⟩ ∧
      lns.length = s.sentenceList.length ∧
      (∀ (i : Nat) (t b : Str), s.sentenceList[i]? = some t → s.IOBList[i]? = some b →
        ∃ l, lns[i]? = some l ∧ (splitTab l.dropLast).getLast? = some b) := by
  refine ⟨blockLines s.sentenceList (posTag s.sentenceList) s.IOBList, ?_, ?_, ?_⟩
  · unfold processLine
    rw [hline]
    exact processBlank_ok posTag s hpos hiob
  · exact blockLines_length _ _ _ hpos hiob
  · intro i t b hti hbi
    have hilen : i < s.sentenceList.length := (List.getElem?_eq_some.mp hti).1
    have hip : i < (posTag s.sentenceList).length := by omega
    have hpi : (posTag s.sentenceList)[i]? = some (posTag s.sentenceList)[i] :=
      List.getElem?_eq_getElem hip
    refine ⟨tokenLine t (posTag s.sentenceList)[i] b,
      blockLines_getElem? _ _ _ i _ _ _ hti hpi hbi, ?_⟩
    have ht : '\t' ∉ t := htf t
      (List.mem_append.mpr (Or.inl (List.mem_append.mpr (Or.inl (List.getElem?_mem hti)))))
    have hpp : '\t' ∉ (posTag s.sentenceList)[i] := htf _
      (List.mem_append.mpr (Or.inl (List.mem_append.mpr (Or.inr (List.getElem_mem hip)))))
    have hbb : '\t' ∉ b := htf b (List.mem_append.mpr (Or.inr (List.getElem?_mem hbi)))
    rw [splitTab_tokenLine t _ b ht hpp hbb]
    exact featureFields_getLast t _ b

/-- Witness for C6 on a one-token sentence. -/
theorem c6_witness :
    ∃ lns : List Str,
      processLine constTagger ⟨[strL "IL-2"], [strL "B-protein"], 0, []⟩ [] =
        Except.ok ⟨[], [], 0 + 1, [] ++ lns.flatten ++ ['\n']⟩ ∧
      lns.length = [strL "IL-2"].length ∧
      (∀ (i : Nat) (t b : Str), [strL "IL-2"][i]? = some t → [strL "B-protein"][i]? = some b →
        ∃ l, lns[i]? = some l ∧ (splitTab l.dropLast).getLast? = some b) :=
  c6_sentence_block_alignment constTagger ⟨[strL "IL-2"], [strL "B-protein"], 0, []⟩ []
    (by decide) (by decide) (by decide) (by decide)

/-- C7: on a sentence boundary the writer emits, for each token line,
the fields separated by single tabs with no trailing tab and one
terminating newline, and emits exactly one additional blank line after
the last token line of the sentence block. -/
theorem c7_writer_format (posTag : List Str → List Str) (s : PyState) (line : Str)
    (hline : splitWS line = [])
    (hpos : (posTag s.sentenceList).length = s.sentenceList.length)
    (hiob : s.IOBList.length = s.sentenceList.length) :
    ∃ lns : List Str,
      processLine posTag s line =
        Except.ok ⟨[], [], s.numSentences + 1, s.out ++ lns.flatten ++ ['\n']⟩ ∧
      ∀ l ∈ lns, ∃ t p b, l = List.intercalate ['\t'] (featureFields t p b) ++ ['\n'] := by
  refine ⟨blockLines s.sentenceList (posTag s.sentenceList) s.IOBList, ?_, ?_⟩
  · unfold processLine
    rw [hline]
    exact processBlank_ok posTag s hpos hiob
  · intro l hl
    obtain ⟨t, p, b, rfl⟩ := mem_blockLines _ _ _ l hl
    refine ⟨t, p, b, ?_⟩
    unfold tokenLine
    rw [writeTemp_joinTabs _ (featureFields_ne_nil t p b), joinTabs_intercalate]

/-- Witness for C7 on a one-token sentence. -/
theorem c7_witness :
    ∃ lns : List Str,
      processLine constTagger ⟨[strL "IL-2"], [strL "B-protein"], 0, []⟩ [] =
        Except.ok ⟨[], [], 0 + 1, [] ++ lns.flatten ++ ['\n']⟩ ∧
      ∀ l ∈ lns, ∃ t p b, l = List.intercalate ['\t'] (featureFields t p b) ++ ['\n'] :=
  c7_writer_format constTagger ⟨[strL "IL-2"], [strL "B-protein"], 0, []⟩ []
    (by decide) (by decide) (by decide)

/- Helper lemmas on the run collapse, for the word-shape idempotence
analysis. -/

theorem collapseAux_nil (n : Nat) : collapseAux [] n = runOut n := rfl

theorem collapseAux_cons (c : Char) (rest : Str) (n : Nat) :
    collapseAux (c :: rest) n =
      if c == 'a' then collapseAux rest (n + 1)
      else runOut n ++ c :: collapseAux rest 0 := rfl

theorem hasAAAA_cons (c : Char) (t : Str) :
    hasAAAA (c :: t) = ((c == 'a' && t.take 3 == ['a', 'a', 'a']) || hasAAAA t) := rfl

theorem hasAAAA_suffix (v : Str) (hv : hasAAAA v = true) :
    ∀ u : Str, hasAAAA (u ++ v) = true := by
  intro u
  induction u with
  | nil => exact hv
  | cons c u2 ih => rw [List.cons_append, hasAAAA_cons, ih, Bool.or_true]

theorem hasAAAA_aaaa (v : Str) : hasAAAA ('a' :: 'a' :: 'a' :: 'a' :: v) = true := by
  simp [hasAAAA_cons, List.take]

theorem hasAAAA_rep4 (m : Nat) (t : Str) :
    hasAAAA (List.replicate (m + 4) 'a' ++ t) = true := by
  have hrep : List.replicate (m + 4) 'a' = 'a' :: 'a' :: 'a' :: 'a' :: List.replicate m 'a' := by
    show List.replicate (m + 1 + 1 + 1 + 1) 'a' = _
    rw [List.replicate_succ, List.replicate_succ, List.replicate_succ, List.replicate_succ]
  rw [hrep, List.cons_append, List.cons_append, List.cons_append, List.cons_append]
  exact hasAAAA_aaaa _

theorem le3_of_not_hasAAAA (n : Nat) (t : Str)
    (h : hasAAAA (List.replicate n 'a' ++ t) = false) : n ≤ 3 := by
  by_contra hgt
  obtain ⟨m, rfl⟩ : ∃ m, n = m + 4 := ⟨n - 4, by omega⟩
  rw [hasAAAA_rep4] at h
  exact Bool.noConfusion h

theorem runOut_le3 (n : Nat) (h : n ≤ 3) : runOut n = List.replicate n 'a' := by
  unfold runOut
  rw [if_neg (by omega : ¬ 4 ≤ n)]

theorem fixAux : ∀ (s : Str) (n : Nat), hasAAAA (List.replicate n 'a' ++ s) = false →
    collapseAux s n = List.replicate n 'a' ++ s := by
  intro s
  induction s with
  | nil =>
    intro n h
    rw [collapseAux_nil, runOut_le3 n (le3_of_not_hasAAAA n [] h), List.append_nil]
  | cons c rest ih =>
    intro n h
    by_cases hc : c = 'a'
    · subst hc
      have heq : List.replicate n 'a' ++ 'a' :: rest = List.replicate (n + 1) 'a' ++ rest := by
        rw [List.replicate_succ', List.append_assoc, List.singleton_append]
      rw [collapseAux_cons, beq_self_eq_true]
      simp only [if_true]
      rw [ih (n + 1) (by rw [← heq]; exact h)]
      exact heq.symm
    · have hc2 : hasAAAA rest = false := by
        cases hr : hasAAAA rest with
        | false => rfl
        | true =>
          exfalso
          have hsfx := hasAAAA_suffix rest hr (List.replicate n 'a' ++ [c])
          rw [List.append_assoc, List.singleton_append, h] at hsfx
          exact Bool.noConfusion hsfx
      have hn3 : n ≤ 3 := le3_of_not_hasAAAA n (c :: rest) h
      rw [collapseAux_cons, beq_eq_false_iff_ne.mpr hc]
      simp only [Bool.false_eq_true, if_false]
      rw [runOut_le3 n hn3, ih 0 (by simpa using hc2)]
      simp

theorem hasAAAA_runOut (n : Nat) : hasAAAA (runOut n) = false := by
  unfold runOut
  split
  · decide
  · next h =>
    have hn : n ≤ 3 := by omega
    interval_cases n <;> decide

theorem noRunBoundary (k : Nat) (hk : k ≤ 3) (c : Char) (hc : c ≠ 'a') (w : Str)
    (hw : hasAAAA w = false) :
    hasAAAA (List.replicate k 'a' ++ c :: w) = false := by
  interval_cases k <;> simp [List.replicate_succ, hasAAAA_cons, hw, hc, List.take]

theorem collapse_noAAAA : ∀ (s : Str) (n : Nat), hasAAAA (collapseAux s n) = false := by
  intro s
  induction s with
  | nil => intro n; rw [collapseAux_nil]; exact hasAAAA_runOut n
  | cons c rest ih =>
    intro n
    by_cases hc : c = 'a'
    · subst hc
      rw [collapseAux_cons, beq_self_eq_true]
      simp only [if_true]
      exact ih (n + 1)
    · rw [collapseAux_cons, beq_eq_false_iff_ne.mpr hc]
      simp only [Bool.false_eq_true, if_false]
      unfold runOut
      split
      · exact noRunBoundary 3 (by omega) c hc _ (ih 0)
      · next h => exact noRunBoundary n (by omega) c hc _ (ih 0)

theorem map_runOut (f : Char → Char) (hfa : f 'a' = 'a') (n : Nat) :
    (runOut n).map f = runOut n := by
  unfold runOut
  split
  · simp [hfa]
  · rw [List.map_replicate, hfa]

theorem collapse_map (f : Char → Char) (hfa : f 'a' = 'a')
    (hfn : ∀ c, c ≠ 'a' → f c ≠ 'a') : ∀ (s : Str) (n : Nat),
    collapseAux (s.map f) n = (collapseAux s n).map f := by
  intro s
  induction s with
  | nil => intro n; rw [List.map_nil, collapseAux_nil, map_runOut f hfa]
  | cons c rest ih =>
    intro n
    by_cases hc : c = 'a'
    · subst hc
      rw [List.map_cons, hfa, collapseAux_cons, collapseAux_cons, beq_self_eq_true]
      simp only [if_true]
      exact ih (n + 1)
    · rw [List.map_cons, collapseAux_cons, collapseAux_cons,
          beq_eq_false_iff_ne.mpr (hfn c hc), beq_eq_false_iff_ne.mpr hc]
      simp only [Bool.false_eq_true, if_false]
      rw [List.map_append, map_runOut f hfa, List.map_cons, ih 0]

theorem mem_runOut (c : Char) (n : Nat) (h : c ∈ runOut n) : c = 'a' := by
  unfold runOut at h
  split at h
  · simpa using h
  · exact List.eq_of_mem_replicate h

theorem mem_collapseAux : ∀ (s : Str) (n : Nat) (c : Char),
    c ∈ collapseAux s n → c = 'a' ∨ c ∈ s := by
  intro s
  induction s with
  | nil => intro n c hc; rw [collapseAux_nil] at hc; exact Or.inl (mem_runOut c n hc)
  | cons c0 rest ih =>
    intro n c hc
    by_cases h0 : c0 = 'a'
    · subst h0
      rw [collapseAux_cons, beq_self_eq_true] at hc
      simp only [if_true] at hc
      rcases ih (n + 1) c hc with h | h
      · exact Or.inl h
      · exact Or.inr (List.mem_cons_of_mem _ h)
    · rw [collapseAux_cons, beq_eq_false_iff_ne.mpr h0] at hc
      simp only [Bool.false_eq_true, if_false] at hc
      rcases List.mem_append.mp hc with h | h
      · exact Or.inl (mem_runOut c n h)
      · rcases List.mem_cons.mp h with rfl | h2
        · exact Or.inr (List.mem_cons_self _ _)
        · rcases ih 0 c h2 with h3 | h3
          · exact Or.inl h3
          · exact Or.inr (List.mem_cons_of_mem _ h3)

theorem mapIdOn (f : Char → Char) : ∀ l : Str, (∀ c ∈ l, f c = c) → l.map f = l := by
  intro l
  induction l with
  | nil => intro _; rfl
  | cons c t ih =>
    intro h
    rw [List.map_cons, h c (List.mem_cons_self c t),
        ih (fun d hd => h d (List.mem_cons_of_mem c hd))]

theorem subUpper_nodigit (c : Char) (h : isDigitA c = false) :
    isDigitA (subUpper c) = false := by
  unfold subUpper
  split
  · decide
  · exact h

theorem subLower_nodigit (c : Char) (h : isDigitA c = false) :
    isDigitA (subLower c) = false := by
  unfold subLower
  split
  · decide
  · exact h

theorem subDigit_id (c : Char) (h : isDigitA c = false) : subDigit c = c := by
  unfold subDigit
  rw [h]
  simp

theorem s2_char_cases (c : Char) :
    subLower (subUpper c) = 'A' ∨ subLower (subUpper c) = 'a' ∨
      (isUpperA (subLower (subUpper c)) = false ∧ isLowerA (subLower (subUpper c)) = false) := by
  by_cases hu : isUpperA c = true
  · left
    unfold subUpper
    rw [if_pos hu]
    decide
  · by_cases hl : isLowerA c = true
    · right; left
      unfold subUpper subLower
      rw [if_neg hu, if_pos hl]
    · right; right
      have hid : subLower (subUpper c) = c := by
        unfold subUpper subLower
        rw [if_neg hu, if_neg hl]
      rw [hid]
      exact ⟨by simpa using hu, by simpa using hl⟩

theorem subNonWord_underscore (c : Char) (hu : isUpperA c = false) (hl : isLowerA c = false)
    (hd : isDigitA c = false) : subNonWord c = '_' := by
  unfold subNonWord
  by_cases hw : isWordA c = true
  · rw [if_pos hw]
    unfold isWordA at hw
    rw [hu, hl, hd] at hw
    simp at hw
    rw [hw]
  · rw [if_neg hw]

/-- C3 counterexample: the word-shape function is not idempotent; on the
one-character string 1 the first pass gives the letter d and the second
pass turns that lowercase letter into a. -/
theorem c3_counterexample :
    ¬ getWordShape (getWordShape (strL "1")) = getWordShape (strL "1") := by
  decide

/-- C3 amended: the word-shape function is idempotent on every string
that contains no decimal digit; digits are the only source of
non-idempotence, because the first pass rewrites a digit to the
lowercase letter d, which the second pass rewrites to a. -/
theorem c3_shape_idem_nodigit (x : Str) (hx : ∀ c ∈ x, isDigitA c = false) :
    getWordShape (getWordShape x) = getWordShape x := by
  have hs2d : ∀ c ∈ (x.map subUpper).map subLower, isDigitA c = false := by
    intro c hc
    rcases List.mem_map.mp hc with ⟨c1, hc1, rfl⟩
    rcases List.mem_map.mp hc1 with ⟨c0, hc0, rfl⟩
    exact subLower_nodigit _ (subUpper_nodigit _ (hx c0 hc0))
  have hzd : ∀ c ∈ collapseAux ((x.map subUpper).map subLower) 0, isDigitA c = false := by
    intro c hc
    rcases mem_collapseAux _ 0 c hc with rfl | h
    · decide
    · exact hs2d c h
  have hstep4 : (collapseAux ((x.map subUpper).map subLower) 0).map subDigit =
      collapseAux ((x.map subUpper).map subLower) 0 :=
    mapIdOn subDigit _ (fun c hc => subDigit_id c (hzd c hc))
  have hyx : getWordShape x =
      (collapseAux ((x.map subUpper).map subLower) 0).map subNonWord := by
    unfold getWordShape
    rw [hstep4]
  have hychars : ∀ c ∈ (collapseAux ((x.map subUpper).map subLower) 0).map subNonWord,
      c = 'A' ∨ c = 'a' ∨ c = '_' := by
    intro c hc
    rcases List.mem_map.mp hc with ⟨c1, hc1, rfl⟩
    rcases mem_collapseAux _ 0 c1 hc1 with rfl | h
    · right; left; decide
    · rcases List.mem_map.mp h with ⟨c2, hc2, rfl⟩
      rcases List.mem_map.mp hc2 with ⟨c0, hc0, rfl⟩
      rcases s2_char_cases c0 with he | he | ⟨hu, hl⟩
      · left; rw [he]; decide
      · right; left; rw [he]; decide
      · right; right
        have hd : isDigitA (subLower (subUpper c0)) = false :=
          subLower_nodigit _ (subUpper_nodigit _ (hx c0 hc0))
        exact subNonWord_underscore _ hu hl hd
  have hfix : collapseAux (collapseAux ((x.map subUpper).map subLower) 0) 0 =
      collapseAux ((x.map subUpper).map subLower) 0 := by
    have h0 := collapse_noAAAA ((x.map subUpper).map subLower) 0
    have h1 := fixAux (collapseAux ((x.map subUpper).map subLower) 0) 0 (by simpa using h0)
    simpa using h1
  have h1 : ((collapseAux ((x.map subUpper).map subLower) 0).map subNonWord).map subUpper =
      (collapseAux ((x.map subUpper).map subLower) 0).map subNonWord :=
    mapIdOn _ _ (fun c hc => by rcases hychars c hc with rfl | rfl | rfl <;> decide)
  have h2 : ((collapseAux ((x.map subUpper).map subLower) 0).map subNonWord).map subLower =
      (collapseAux ((x.map subUpper).map subLower) 0).map subNonWord :=
    mapIdOn _ _ (fun c hc => by rcases hychars c hc with rfl | rfl | rfl <;> decide)
  have h3 : collapseAux ((collapseAux ((x.map subUpper).map subLower) 0).map subNonWord) 0 =
      (collapseAux ((x.map subUpper).map subLower) 0).map subNonWord := by
    rw [collapse_map subNonWord (by decide)
      (fun c hc => by
        unfold subNonWord
        split
        · exact hc
        · decide) _ 0, hfix]
  have h4 : ((collapseAux ((x.map subUpper).map subLower) 0).map subNonWord).map subDigit =
      (collapseAux ((x.map subUpper).map subLower) 0).map subNonWord :=
    mapIdOn _ _ (fun c hc => by rcases hychars c hc with rfl | rfl | rfl <;> decide)
  have h5 : ((collapseAux ((x.map subUpper).map subLower) 0).map subNonWord).map subNonWord =
      (collapseAux ((x.map subUpper).map subLower) 0).map subNonWord :=
    mapIdOn _ _ (fun c hc => by rcases hychars c hc with rfl | rfl | rfl <;> decide)
  rw [hyx]
  unfold getWordShape
  rw [h1, h2, h3, h4, h5]

/-- Witness for the amended C3 on the digit-free string Abc-x. -/
theorem c3_witness :
    (∀ c ∈ strL "Abc-x", isDigitA c = false) ∧
    getWordShape (getWordShape (strL "Abc-x")) = getWordShape (strL "Abc-x") :=
  ⟨by decide, c3_shape_idem_nodigit (strL "Abc-x") (by decide)⟩

example : getWordShape (strL "Jurkat-1") = strL "Aaaa_d" := by decide
example : getWordShape (strL "dddd") = strL "aaa" := by decide
example : getWordShape (strL "1111") = strL "dddd" := by decide
example : getAnyLexBool (strL "IL-2") = 1 := by decide
example : getAnyLexBool (strL "the") = 0 := by decide
example : getCommonStringBool (strL "Protein") = 1 := by decide
example : splitWS (strL "  IL-2   B-protein  ") = [strL "IL-2", strL "B-protein"] := by decide
example :
    runProgram constTagger [strL "a O", strL ""] =
      Except.ok ⟨[], [], 1, strL "a\tNN\t0\t0\t0\t0\t0\t0\t0\t0\t0\ta\t0\t0\t0\t0\t0\t0\t0\t0\t0\t0\tO\n\n"⟩ :=
  rfl
example : runProgram constTagger [strL "lonely"] =
    Except.error ⟨[strL "lonely"], [], 0, []⟩ := rfl
